import Mathlib

/-!
Shallow embedding of `src/kv/txn.rs` from `dtzxporter/etcd-rs`: the fluent
builder `TxnRequest` for etcd conditional transactions, its conversions into
the protobuf wire shapes, and the `TxnResponse` wrapper.

Types generated from the etcd protobuf definitions (`etcdserverpb::Compare`,
`etcdserverpb::TxnRequest`, `etcdserverpb::RequestOp`,
`etcdserverpb::TxnResponse`, the `CompareResult` / `CompareTarget` codes) and
the sibling request builders (`KeyRange`, `RangeRequest`, `PutRequest`,
`DeleteRequest`) live outside the verified source file; they are modelled
from the spec where noted.
-/

namespace EtcdRs

/-- Modelled from the spec: `KeyRange` (owned by a key-range utility outside
this file) is a key plus an optional end-of-range marker; in the wire shape
both are byte sequences, an empty `range_end` meaning a single key. -/
structure KeyRange where
  key : List Nat
  range_end : List Nat
deriving DecidableEq, Repr

/-- Modelled from the spec: the `Range` request payload shape is owned by its
own request builder outside this file; it is opaque to the transaction core. -/
structure RangeRequest where
  payload : Nat
deriving DecidableEq, Repr

/-- Modelled from the spec: the `Put` request payload shape is owned by its
own request builder outside this file; it is opaque to the transaction core. -/
structure PutRequest where
  payload : Nat
deriving DecidableEq, Repr

/-- Modelled from the spec: the `Delete` request payload shape is owned by its
own request builder outside this file; it is opaque to the transaction core. -/
structure DeleteRequest where
  payload : Nat
deriving DecidableEq, Repr

/-- The `TxnCmp` comparison-operator enum from `src/kv/txn.rs`. -/
inductive TxnCmp where
  | Equal
  | NotEqual
  | Greater
  | Less
deriving DecidableEq, Repr

/-- Modelled from the spec: the protobuf `CompareResult` enum generated from
the etcd proto, outside the verified file. -/
inductive CompareResult where
  | Equal
  | Greater
  | Less
  | NotEqual
deriving DecidableEq, Repr

/-- Modelled from the spec: the numeric wire code of a `CompareResult`
(the Rust `as i32` cast on the generated enum). -/
def CompareResult.code : CompareResult → Int
  | .Equal => 0
  | .Greater => 1
  | .Less => 2
  | .NotEqual => 3

/-- Modelled from the spec: the protobuf `CompareTarget` enum generated from
the etcd proto, outside the verified file. -/
inductive CompareTarget where
  | Version
  | Create
  | Mod
  | Value
deriving DecidableEq, Repr

/-- Modelled from the spec: the numeric wire code of a `CompareTarget`
(the Rust `as i32` cast on the generated enum). -/
def CompareTarget.code : CompareTarget → Int
  | .Version => 0
  | .Create => 1
  | .Mod => 2
  | .Value => 3

/-- `impl Into<CompareResult> for TxnCmp` from `src/kv/txn.rs`. -/
def TxnCmp.intoCompareResult : TxnCmp → CompareResult
  | .Equal => .Equal
  | .NotEqual => .NotEqual
  | .Greater => .Greater
  | .Less => .Less

/-- Modelled from the spec: the protobuf `TargetUnion` one-of carried by a
`Compare` record, generated from the etcd proto outside the verified file. -/
inductive TargetUnion where
  | Version (v : Int)
  | CreateRevision (v : Int)
  | ModRevision (v : Int)
  | Value (v : List Nat)
deriving DecidableEq, Repr

/-- Modelled from the spec: the protobuf `Compare` record, generated from the
etcd proto outside the verified file: operator code, target-kind code, key,
range-end, and the target-specific expected value. -/
structure Compare where
  result : Int
  target : Int
  key : List Nat
  range_end : List Nat
  target_union : Option TargetUnion
deriving DecidableEq, Repr

/-- Semantics of the Rust cast `v as i64` applied to a `usize` value `v`
(64-bit target): reinterpret `v % 2^64` as a signed 64-bit integer. -/
def usizeAsI64 (v : Nat) : Int :=
  if v % 2 ^ 64 < 2 ^ 63 then ((v % 2 ^ 64 : Nat) : Int)
  else ((v % 2 ^ 64 : Nat) : Int) - 2 ^ 64

mutual

/-- Modelled from the spec: the protobuf `etcdserverpb::TxnRequest` wire
record generated from the etcd proto — an ordered compare list and ordered
success / failure operation lists. -/
inductive PbTxnRequest where
| mk (compare : List Compare) (success : List RequestOp) (failure : List RequestOp)

/-- Modelled from the spec: the protobuf `etcdserverpb::RequestOp` wire
record generated from the etcd proto — an optional request one-of. -/
inductive RequestOp where
| mk (request : Option Request)

/-- Modelled from the spec: the protobuf `request_op::Request` one-of
generated from the etcd proto. -/
inductive Request where
| RequestRange (r : RangeRequest)
| RequestPut (r : PutRequest)
| RequestDeleteRange (r : DeleteRequest)
| RequestTxn (r : PbTxnRequest)

end

/-- Projection: the compare list of a wire `TxnRequest`. -/
def PbTxnRequest.compare : PbTxnRequest → List Compare
  | .mk c _ _ => c

/-- Projection: the success-branch list of a wire `TxnRequest`. -/
def PbTxnRequest.success : PbTxnRequest → List RequestOp
  | .mk _ s _ => s

/-- Projection: the failure-branch list of a wire `TxnRequest`. -/
def PbTxnRequest.failure : PbTxnRequest → List RequestOp
  | .mk _ _ f => f

/-- Projection: the request one-of of a wire `RequestOp`. -/
def RequestOp.request : RequestOp → Option Request
  | .mk r => r

/-- The builder `TxnRequest` struct from `src/kv/txn.rs`: a wrapper around
the wire request it accumulates into. -/
structure TxnRequest where
  proto : PbTxnRequest

/-- `TxnRequest::new` from `src/kv/txn.rs`: empty compare, success, failure. -/
def TxnRequest.new : TxnRequest :=
  ⟨.mk [] [] []⟩

/-- `TxnRequest::when_version` from `src/kv/txn.rs`. -/
def TxnRequest.when_version (t : TxnRequest) (key_range : KeyRange)
    (cmp : TxnCmp) (version : Nat) : TxnRequest :=
  ⟨.mk (t.proto.compare ++
        [{ result := (TxnCmp.intoCompareResult cmp).code
           target := CompareTarget.Version.code
           key := key_range.key
           range_end := key_range.range_end
           target_union := some (.Version (usizeAsI64 version)) }])
       t.proto.success t.proto.failure⟩

/-- `TxnRequest::when_create_revision` from `src/kv/txn.rs`. -/
def TxnRequest.when_create_revision (t : TxnRequest) (key_range : KeyRange)
    (cmp : TxnCmp) (revision : Nat) : TxnRequest :=
  ⟨.mk (t.proto.compare ++
        [{ result := (TxnCmp.intoCompareResult cmp).code
           target := CompareTarget.Create.code
           key := key_range.key
           range_end := key_range.range_end
           target_union := some (.CreateRevision (usizeAsI64 revision)) }])
       t.proto.success t.proto.failure⟩

/-- `TxnRequest::when_mod_revision` from `src/kv/txn.rs`. -/
def TxnRequest.when_mod_revision (t : TxnRequest) (key_range : KeyRange)
    (cmp : TxnCmp) (revision : Nat) : TxnRequest :=
  ⟨.mk (t.proto.compare ++
        [{ result := (TxnCmp.intoCompareResult cmp).code
           target := CompareTarget.Mod.code
           key := key_range.key
           range_end := key_range.range_end
           target_union := some (.ModRevision (usizeAsI64 revision)) }])
       t.proto.success t.proto.failure⟩

/-- `TxnRequest::when_value` from `src/kv/txn.rs` (the generic `V : Into<Vec<u8>>`
argument taken after its conversion to bytes). -/
def TxnRequest.when_value (t : TxnRequest) (key_range : KeyRange)
    (cmp : TxnCmp) (value : List Nat) : TxnRequest :=
  ⟨.mk (t.proto.compare ++
        [{ result := (TxnCmp.intoCompareResult cmp).code
           target := CompareTarget.Value.code
           key := key_range.key
           range_end := key_range.range_end
           target_union := some (.Value value) }])
       t.proto.success t.proto.failure⟩

/-- The `TxnOp` enum from `src/kv/txn.rs`. -/
inductive TxnOp where
  | Range (r : RangeRequest)
  | Put (r : PutRequest)
  | Delete (r : DeleteRequest)
  | Txn (r : TxnRequest)

/-- `impl Into<etcdserverpb::TxnRequest> for TxnRequest` from
`src/kv/txn.rs`: the finalizing conversion returns the accumulated proto. -/
def TxnRequest.intoPb (t : TxnRequest) : PbTxnRequest :=
  t.proto

/-- `impl Into<etcdserverpb::RequestOp> for TxnOp` from `src/kv/txn.rs`
(the inner `req.into()` conversions of the sibling builders are modelled as
the identity on their opaque payloads; a nested `TxnRequest` converts via
`TxnRequest.intoPb`). -/
def TxnOp.intoRequestOp : TxnOp → RequestOp
  | .Range r => .mk (some (.RequestRange r))
  | .Put r => .mk (some (.RequestPut r))
  | .Delete r => .mk (some (.RequestDeleteRange r))
  | .Txn r => .mk (some (.RequestTxn r.intoPb))

/-- `TxnRequest::and_then` from `src/kv/txn.rs` (the generic `O : Into<TxnOp>`
argument taken after its conversion to `TxnOp`). -/
def TxnRequest.and_then (t : TxnRequest) (op : TxnOp) : TxnRequest :=
  ⟨.mk t.proto.compare (t.proto.success ++ [op.intoRequestOp]) t.proto.failure⟩

/-- `TxnRequest::or_else` from `src/kv/txn.rs` (the generic `O : Into<TxnOp>`
argument taken after its conversion to `TxnOp`). -/
def TxnRequest.or_else (t : TxnRequest) (op : TxnOp) : TxnRequest :=
  ⟨.mk t.proto.compare t.proto.success (t.proto.failure ++ [op.intoRequestOp])⟩

/-- Modelled from the spec: one per-operation result of an executed branch,
polymorphic over the four operation kinds, as carried by the protobuf
`ResponseOp` one-of generated from the etcd proto; payloads are opaque to
the transaction core. -/
inductive ResponseOp where
  | ResponseRange (r : Nat)
  | ResponsePut (r : Nat)
  | ResponseDeleteRange (r : Nat)
  | ResponseTxn (r : Nat)
deriving DecidableEq, Repr

/-- Modelled from the spec: the protobuf `etcdserverpb::TxnResponse` wire
record generated from the etcd proto — the branch-selection flag
(`succeeded`, true when the success branch was taken) and the ordered
per-operation results of the executed branch. -/
structure PbTxnResponse where
  succeeded : Bool
  responses : List ResponseOp
deriving DecidableEq, Repr

/-- The `TxnResponse` wrapper struct from `src/kv/txn.rs`. -/
structure TxnResponse where
  proto : PbTxnResponse
deriving DecidableEq, Repr

/-- `impl From<etcdserverpb::TxnResponse> for TxnResponse` from
`src/kv/txn.rs`: wraps the decoded reply unchanged. -/
def TxnResponse.fromPb (resp : PbTxnResponse) : TxnResponse :=
  ⟨resp⟩

/-- Modelled from the spec: the accessor exposing which branch executed
(true when the success branch was taken); reads the wrapped reply's flag. -/
def TxnResponse.is_success (r : TxnResponse) : Bool :=
  r.proto.succeeded

/-- Modelled from the spec: the accessor exposing the ordered list of
per-operation results of the executed branch; reads the wrapped reply's
result list. -/
def TxnResponse.results (r : TxnResponse) : List ResponseOp :=
  r.proto.responses

/-- One predicate-adding call on the builder, tagging which of the four
`when_*` methods is invoked and with which arguments. -/
inductive CmpAdd where
  | version (kr : KeyRange) (cmp : TxnCmp) (v : Nat)
  | createRev (kr : KeyRange) (cmp : TxnCmp) (v : Nat)
  | modRev (kr : KeyRange) (cmp : TxnCmp) (v : Nat)
  | value (kr : KeyRange) (cmp : TxnCmp) (v : List Nat)

/-- Apply one predicate-adding call to a builder. -/
def applyAdd (t : TxnRequest) : CmpAdd → TxnRequest
  | .version kr cmp v => t.when_version kr cmp v
  | .createRev kr cmp v => t.when_create_revision kr cmp v
  | .modRev kr cmp v => t.when_mod_revision kr cmp v
  | .value kr cmp v => t.when_value kr cmp v

/-- Apply a sequence of predicate-adding calls, left to right. -/
def applyAdds (t : TxnRequest) (l : List CmpAdd) : TxnRequest :=
  l.foldl applyAdd t

/-- The `Compare` record that one predicate-adding call appends. -/
def CmpAdd.toCompare : CmpAdd → Compare
  | .version kr cmp v =>
      { result := (TxnCmp.intoCompareResult cmp).code
        target := CompareTarget.Version.code
        key := kr.key
        range_end := kr.range_end
        target_union := some (.Version (usizeAsI64 v)) }
  | .createRev kr cmp v =>
      { result := (TxnCmp.intoCompareResult cmp).code
        target := CompareTarget.Create.code
        key := kr.key
        range_end := kr.range_end
        target_union := some (.CreateRevision (usizeAsI64 v)) }
  | .modRev kr cmp v =>
      { result := (TxnCmp.intoCompareResult cmp).code
        target := CompareTarget.Mod.code
        key := kr.key
        range_end := kr.range_end
        target_union := some (.ModRevision (usizeAsI64 v)) }
  | .value kr cmp v =>
      { result := (TxnCmp.intoCompareResult cmp).code
        target := CompareTarget.Value.code
        key := kr.key
        range_end := kr.range_end
        target_union := some (.Value v) }

/-- One branch-building call on the builder: `and_then` (success branch) or
`or_else` (failure branch), with the operation passed. -/
inductive BranchCall where
  | onSuccess (op : TxnOp)
  | onFailure (op : TxnOp)

/-- Apply one branch-building call to a builder. -/
def applyCall (t : TxnRequest) : BranchCall → TxnRequest
  | .onSuccess op => t.and_then op
  | .onFailure op => t.or_else op

/-- Apply a sequence of branch-building calls, left to right. -/
def applyCalls (t : TxnRequest) (l : List BranchCall) : TxnRequest :=
  l.foldl applyCall t

/-- The operations passed to `and_then` calls, in call order. -/
def successOps (l : List BranchCall) : List TxnOp :=
  l.filterMap fun c => match c with
    | .onSuccess op => some op
    | .onFailure _ => none

/-- The operations passed to `or_else` calls, in call order. -/
def failureOps (l : List BranchCall) : List TxnOp :=
  l.filterMap fun c => match c with
    | .onSuccess _ => none
    | .onFailure op => some op

/-- Modelled from the spec: server-side branch selection. Given any
evaluation of a single compare predicate against a store state (abstracted
as a function `p`, since predicate evaluation happens only on the server),
the transaction takes the success branch exactly when all predicates hold
simultaneously — the implicit logical AND over the compare list. -/
def txnSucceeds (p : Compare → Bool) (req : PbTxnRequest) : Bool :=
  req.compare.all p

/-! Helper lemmas shared by the claim theorems. -/

theorem applyAdd_proto (t : TxnRequest) (a : CmpAdd) :
    (applyAdd t a).proto
      = .mk (t.proto.compare ++ [a.toCompare]) t.proto.success t.proto.failure := by
  cases a <;> rfl

theorem applyAdds_compare (l : List CmpAdd) (t : TxnRequest) :
    (applyAdds t l).proto.compare = t.proto.compare ++ l.map CmpAdd.toCompare := by
  induction l generalizing t with
  | nil => simp [applyAdds]
  | cons a l ih =>
      show (applyAdds (applyAdd t a) l).proto.compare = _
      rw [ih, applyAdd_proto]
      simp [PbTxnRequest.compare]

theorem applyCalls_success (l : List BranchCall) (t : TxnRequest) :
    (applyCalls t l).proto.success
      = t.proto.success ++ (successOps l).map TxnOp.intoRequestOp := by
  induction l generalizing t with
  | nil => simp [applyCalls, successOps]
  | cons c l ih =>
      show (applyCalls (applyCall t c) l).proto.success = _
      rw [ih]
      cases c <;>
        simp [applyCall, successOps, TxnRequest.and_then, TxnRequest.or_else,
          PbTxnRequest.success]

theorem applyCalls_failure (l : List BranchCall) (t : TxnRequest) :
    (applyCalls t l).proto.failure
      = t.proto.failure ++ (failureOps l).map TxnOp.intoRequestOp := by
  induction l generalizing t with
  | nil => simp [applyCalls, failureOps]
  | cons c l ih =>
      show (applyCalls (applyCall t c) l).proto.failure = _
      rw [ih]
      cases c <;>
        simp [applyCall, failureOps, TxnRequest.and_then, TxnRequest.or_else,
          PbTxnRequest.failure]

theorem perm_all_eq {α : Type} {l l' : List α} (h : l.Perm l') (p : α → Bool) :
    l.all p = l'.all p := by
  induction h with
  | nil => rfl
  | cons x _ ih => simp [List.all_cons, ih]
  | swap x y l => simp [List.all_cons, Bool.and_left_comm]
  | trans _ _ ih₁ ih₂ => rw [ih₁, ih₂]

/-! The claim theorems. -/

/-- Claim C1, counterexample: as stated the claim fails — `when_version` with the
input expected value `2 ^ 63` stores `-(2 ^ 63)` on the wire (the `as i64`
cast wraps), which is not equal to the input. -/
theorem when_version_large_value_cex :
    (TxnRequest.new.when_version ⟨[102, 111, 111], []⟩ TxnCmp.Equal (2 ^ 63)).intoPb.compare
      = [⟨0, 0, [102, 111, 111], [], some (.Version (-(2 ^ 63 : Int)))⟩]
    ∧ (-(2 ^ 63 : Int)) ≠ ((2 ^ 63 : Nat) : Int) := by
  constructor
  · show _ = _
    rw [show (-(2 ^ 63 : Int)) = usizeAsI64 (2 ^ 63) by
      rw [usizeAsI64]
      norm_num]
    rfl
  · norm_num

/-- Claim C1, amended: every predicate-adding call appends exactly one entry to
the compare list, leaving previous entries unchanged; the new entry carries
the input operator's code, the method's target kind code, the input key and
range_end, and the expected value — exactly the input bytes for
`when_value`, and the input cast by `as i64` (`usizeAsI64`) for the three
integer predicates, which equals the input exactly whenever it is below
`2 ^ 63`. -/
theorem when_predicates_append_one_exact (t : TxnRequest) (kr : KeyRange)
    (cmp : TxnCmp) (n : Nat) (bs : List Nat) :
    (t.when_version kr cmp n).intoPb.compare
      = t.intoPb.compare ++
        [⟨(TxnCmp.intoCompareResult cmp).code, CompareTarget.Version.code,
          kr.key, kr.range_end, some (.Version (usizeAsI64 n))⟩]
    ∧ (t.when_create_revision kr cmp n).intoPb.compare
      = t.intoPb.compare ++
        [⟨(TxnCmp.intoCompareResult cmp).code, CompareTarget.Create.code,
          kr.key, kr.range_end, some (.CreateRevision (usizeAsI64 n))⟩]
    ∧ (t.when_mod_revision kr cmp n).intoPb.compare
      = t.intoPb.compare ++
        [⟨(TxnCmp.intoCompareResult cmp).code, CompareTarget.Mod.code,
          kr.key, kr.range_end, some (.ModRevision (usizeAsI64 n))⟩]
    ∧ (t.when_value kr cmp bs).intoPb.compare
      = t.intoPb.compare ++
        [⟨(TxnCmp.intoCompareResult cmp).code, CompareTarget.Value.code,
          kr.key, kr.range_end, some (.Value bs)⟩]
    ∧ (n < 2 ^ 63 → usizeAsI64 n = (n : Int)) := by
  refine ⟨rfl, rfl, rfl, rfl, fun h => ?_⟩
  rw [usizeAsI64, if_pos]
  · rw [Nat.mod_eq_of_lt (lt_trans h (by norm_num))]
  · rw [Nat.mod_eq_of_lt (lt_trans h (by norm_num))]
    exact h

/-- Claim C2: the success list of the finalized request is exactly the operations
passed to `and_then` in call order, and the failure list exactly those
passed to `or_else` in call order, appended after whatever the builder
already held. -/
theorem branch_calls_preserve_order (t : TxnRequest) (l : List BranchCall) :
    (applyCalls t l).intoPb.success
      = t.intoPb.success ++ (successOps l).map TxnOp.intoRequestOp
    ∧ (applyCalls t l).intoPb.failure
      = t.intoPb.failure ++ (failureOps l).map TxnOp.intoRequestOp :=
  ⟨applyCalls_success l t, applyCalls_failure l t⟩

/-- Claim C3: `and_then` leaves the failure branch's contents and length
unchanged, and `or_else` leaves the success branch's contents and length
unchanged. -/
theorem branch_calls_independent (t : TxnRequest) (op : TxnOp) :
    (t.and_then op).intoPb.failure = t.intoPb.failure
    ∧ (t.and_then op).intoPb.failure.length = t.intoPb.failure.length
    ∧ (t.or_else op).intoPb.success = t.intoPb.success
    ∧ (t.or_else op).intoPb.success.length = t.intoPb.success.length :=
  ⟨rfl, rfl, rfl, rfl⟩

/-- Claim C4: finalization returns the accumulated proto unchanged — the compare,
success, and failure lists of the wire request are exactly the builder's
accumulated lists, with no filtering or reordering. -/
theorem finalize_returns_lists_as_built (t : TxnRequest) :
    t.intoPb = t.proto
    ∧ t.intoPb.compare = t.proto.compare
    ∧ t.intoPb.success = t.proto.success
    ∧ t.intoPb.failure = t.proto.failure :=
  ⟨rfl, rfl, rfl, rfl⟩

/-- Claim C5: wrapping a wire reply whose branch-selection flag indicates the
failure branch executed yields a response whose success accessor reads
false and whose exposed results are exactly the reply's (failure-branch)
results. -/
theorem response_failure_branch_exposed (resp : PbTxnResponse)
    (h : resp.succeeded = false) :
    (TxnResponse.fromPb resp).is_success = false
    ∧ (TxnResponse.fromPb resp).results = resp.responses :=
  ⟨h, rfl⟩

/-- Claim C5, witness: a concrete failure-branch reply. -/
theorem response_failure_branch_exposed_witness :
    (TxnResponse.fromPb ⟨false, [.ResponseRange 7, .ResponsePut 3]⟩).is_success = false
    ∧ (TxnResponse.fromPb ⟨false, [.ResponseRange 7, .ResponsePut 3]⟩).results
        = [.ResponseRange 7, .ResponsePut 3] :=
  response_failure_branch_exposed ⟨false, [.ResponseRange 7, .ResponsePut 3]⟩ rfl

/-- Claim C6: finalizing a freshly created builder yields empty compare, success,
and failure lists. -/
theorem new_finalizes_empty :
    TxnRequest.new.intoPb.compare = []
    ∧ TxnRequest.new.intoPb.success = []
    ∧ TxnRequest.new.intoPb.failure = [] :=
  ⟨rfl, rfl, rfl⟩

/-- Claim C7: every builder method and every wrap/unwrap conversion is total over
well-typed inputs — each returns a value on every input (they are plain
functions of the embedding), and the `TxnOp` conversion always produces a
`RequestOp` whose one-of is populated (`Some`), never an empty or error
case. -/
theorem builder_conversions_total :
    (∀ op : TxnOp, (TxnOp.intoRequestOp op).request.isSome = true)
    ∧ (∀ c : TxnCmp, ∃ r : CompareResult, TxnCmp.intoCompareResult c = r)
    ∧ (∀ (t : TxnRequest) (a : CmpAdd), ∃ t' : TxnRequest, applyAdd t a = t')
    ∧ (∀ (t : TxnRequest) (b : BranchCall), ∃ t' : TxnRequest, applyCall t b = t')
    ∧ (∀ t : TxnRequest, ∃ r : PbTxnRequest, t.intoPb = r)
    ∧ (∀ resp : PbTxnResponse, ∃ w : TxnResponse, TxnResponse.fromPb resp = w) := by
  refine ⟨fun op => ?_, fun c => ⟨_, rfl⟩, fun t a => ⟨_, rfl⟩,
    fun t b => ⟨_, rfl⟩, fun t => ⟨_, rfl⟩, fun resp => ⟨_, rfl⟩⟩
  cases op <;> rfl

/-- Claim C8: constructing a `TxnResponse` from a decoded wire reply stores the
reply unchanged — the wrapped flag and result list are identical to the
input's. -/
theorem fromPb_stores_reply_unchanged (resp : PbTxnResponse) :
    (TxnResponse.fromPb resp).proto = resp
    ∧ (TxnResponse.fromPb resp).proto.succeeded = resp.succeeded
    ∧ (TxnResponse.fromPb resp).proto.responses = resp.responses :=
  ⟨rfl, rfl, rfl⟩

/-- Claim C9: adding the same predicates in any two permuted orders yields
requests with the same branch-selection outcome under the
all-predicates-AND evaluation, for every store state (abstracted as any
per-predicate evaluation function). -/
theorem predicate_order_independent (t : TxnRequest) (l l' : List CmpAdd)
    (h : l.Perm l') (p : Compare → Bool) :
    txnSucceeds p (applyAdds t l).intoPb = txnSucceeds p (applyAdds t l').intoPb := by
  show ((applyAdds t l).proto.compare).all p = ((applyAdds t l').proto.compare).all p
  rw [applyAdds_compare, applyAdds_compare, List.all_append, List.all_append,
    perm_all_eq (h.map CmpAdd.toCompare) p]

/-- Claim C9, witness: two concrete predicates added in both orders. -/
theorem predicate_order_independent_witness :
    txnSucceeds (fun c => c.target == 0)
        (applyAdds TxnRequest.new
          [.version ⟨[1], []⟩ .Equal 3, .value ⟨[2], []⟩ .Less [9]]).intoPb
      = txnSucceeds (fun c => c.target == 0)
        (applyAdds TxnRequest.new
          [.value ⟨[2], []⟩ .Less [9], .version ⟨[1], []⟩ .Equal 3]).intoPb :=
  predicate_order_independent TxnRequest.new
    [.version ⟨[1], []⟩ .Equal 3, .value ⟨[2], []⟩ .Less [9]]
    [.value ⟨[2], []⟩ .Less [9], .version ⟨[1], []⟩ .Equal 3]
    (List.Perm.swap _ _ _) (fun c => c.target == 0)

/-- Claim C10: the integer predicate methods store the expected value through the
`as i64` cast: for any `usize` input (below `2 ^ 64`), the stored wire
value is exactly the input when the input is at most `2 ^ 63 - 1`, and is
the input minus `2 ^ 64` — a negative number — when the input is larger,
with no error raised. -/
theorem integer_predicates_cast_as_i64 (t : TxnRequest) (kr : KeyRange)
    (cmp : TxnCmp) (v : Nat) (hv : v < 2 ^ 64) :
    (t.when_version kr cmp v).intoPb.compare.getLast?
      = some ⟨(TxnCmp.intoCompareResult cmp).code, CompareTarget.Version.code,
          kr.key, kr.range_end, some (.Version (usizeAsI64 v))⟩
    ∧ (t.when_create_revision kr cmp v).intoPb.compare.getLast?
      = some ⟨(TxnCmp.intoCompareResult cmp).code, CompareTarget.Create.code,
          kr.key, kr.range_end, some (.CreateRevision (usizeAsI64 v))⟩
    ∧ (t.when_mod_revision kr cmp v).intoPb.compare.getLast?
      = some ⟨(TxnCmp.intoCompareResult cmp).code, CompareTarget.Mod.code,
          kr.key, kr.range_end, some (.ModRevision (usizeAsI64 v))⟩
    ∧ (v ≤ 2 ^ 63 - 1 → usizeAsI64 v = (v : Int))
    ∧ (2 ^ 63 ≤ v → usizeAsI64 v = (v : Int) - 2 ^ 64 ∧ usizeAsI64 v < 0) := by
  have hmod : v % 2 ^ 64 = v := Nat.mod_eq_of_lt hv
  refine ⟨?_, ?_, ?_, fun h => ?_, fun h => ?_⟩
  · show (t.proto.compare ++ [_]).getLast? = _
    rw [List.getLast?_concat]
  · show (t.proto.compare ++ [_]).getLast? = _
    rw [List.getLast?_concat]
  · show (t.proto.compare ++ [_]).getLast? = _
    rw [List.getLast?_concat]
  · rw [usizeAsI64, hmod, if_pos]
    exact lt_of_le_of_lt h (by norm_num)
  · rw [usizeAsI64, hmod, if_neg (by omega)]
    refine ⟨rfl, ?_⟩
    have : (v : Int) < 2 ^ 64 := by exact_mod_cast hv
    omega

/-- Claim C10, witness: a concrete wrapping input `2 ^ 63` on `when_version`. -/
theorem integer_predicates_cast_as_i64_witness :
    (TxnRequest.new.when_version ⟨[5], []⟩ TxnCmp.Greater (2 ^ 63)).intoPb.compare.getLast?
      = some ⟨(TxnCmp.intoCompareResult TxnCmp.Greater).code, CompareTarget.Version.code,
          [5], [], some (.Version (usizeAsI64 (2 ^ 63)))⟩
    ∧ usizeAsI64 (2 ^ 63) = ((2 ^ 63 : Nat) : Int) - 2 ^ 64
    ∧ usizeAsI64 (2 ^ 63) < 0 :=
  ⟨(integer_predicates_cast_as_i64 TxnRequest.new ⟨[5], []⟩ TxnCmp.Greater (2 ^ 63)
      (by norm_num)).1,
   (integer_predicates_cast_as_i64 TxnRequest.new ⟨[5], []⟩ TxnCmp.Greater (2 ^ 63)
      (by norm_num)).2.2.2.2 (by norm_num)⟩

end EtcdRs
